import Mathlib

/-
Verification of the macro-binding registry (MacroManager) and the
file-extension classifier (isCompilableFile) of the roblox-ts project,
as a shallow embedding of src/Project/util/isCompilableFile.ts.

Resolved symbols (ts.Symbol values) are opaque compiler identities; they
are modelled as natural-number tags.  JavaScript Map objects, which keep
insertion order and replace the value in place on repeated set, are
modelled as association lists with matching lookup and update operations.
The fs / path checks on the fixed declaration-file set are external
collaborators; the scanner is therefore given the statement lists of the
declaration files directly.
-/

set_option autoImplicit false

namespace RobloxTS

/-- Modelled from the spec: the constants TS_EXT, TSX_EXT and DTS_EXT are
imported from Shared/constants, a file that is not part of the provided
sources; the spec describes isCompilableFile as the trivial file-extension
classifier selecting compilable TypeScript sources, so the constants are
given the extension strings their names denote. -/
def TS_EXT : String := ".ts"

/-- Extension of tsx source files, see TS_EXT. -/
def TSX_EXT : String := ".tsx"

/-- Extension of declaration files, see TS_EXT. -/
def DTS_EXT : String := ".d.ts"

/-- Model of the JavaScript String.prototype.endsWith used by the source:
a suffix test on the character sequences of the two strings. -/
def strEndsWith (s suffix : String) : Bool :=
  suffix.data.isSuffixOf s.data

/-- Embedding of isCompilableFile from src/Project/util/isCompilableFile.ts:
paths ending in DTS_EXT are rejected first, then paths ending in TS_EXT or
TSX_EXT are accepted. -/
def isCompilableFile (fsPath : String) : Bool :=
  if strEndsWith fsPath DTS_EXT then false
  else strEndsWith fsPath TS_EXT || strEndsWith fsPath TSX_EXT

/-- Opaque compiler-assigned identity of a declaration site (a ts.Symbol). -/
abbrev Sym := Nat

/-- Name of a variable-declaration binding: either a simple identifier or a
destructuring pattern (array/object binding pattern). -/
inductive BindingName where
  | ident (text : String)
  | pattern
  deriving DecidableEq

/-- True exactly on simple identifier binding names. -/
def BindingName.isIdentName : BindingName → Bool
  | .ident _ => true
  | .pattern => false

/-- One declaration of a variable statement: its binding name and the
resolved symbol of the declaration (declaration.symbol). -/
structure VarDecl where
  name : BindingName
  symbol : Sym
  deriving DecidableEq

/-- Name of an interface member: a simple identifier or any other property
name form (string literal, computed name, ...). -/
inductive PropertyName where
  | ident (text : String)
  | other
  deriving DecidableEq

/-- Member of an interface declaration.  A method signature carries the
symbol of its resolved type (typeChecker.getTypeAtLocation(member).symbol);
a construct signature carries its own declaration symbol (member.symbol). -/
inductive Member where
  | methodSig (name : PropertyName) (typeSymbol : Sym)
  | constructSig (symbol : Sym)
  | otherMember
  deriving DecidableEq

/-- Top-level statement of a declaration file, restricted to the data the
scanner reads.  A function declaration carries its optional name
(statement.name is optional in the TypeScript AST), its own declaration
symbol, and the symbol of its resolved type
(typeChecker.getTypeAtLocation(statement).symbol). -/
inductive Statement where
  | varStatement (decls : List VarDecl)
  | funcDecl (name : Option String) (declSymbol : Sym) (typeSymbol : Sym)
  | interfaceDecl (name : String) (typeSymbol : Sym) (members : List Member)
  | otherStatement
  deriving DecidableEq

/-- Errors arising during construction: ProjectError values thrown by the
source, and the runtime TypeError produced by dereferencing the name of an
unnamed function declaration through the non-null assertion
statement.name!. -/
inductive MacroError where
  | projectError (msg : String)
  | runtimeError
  deriving DecidableEq

/-- Lookup in a name-keyed JavaScript Map modelled as an association list
(first matching key wins; keys are unique for maps built by alistUpd). -/
def alistGet {α : Type} : List (String × α) → String → Option α
  | [], _ => none
  | (k, v) :: rest, n => if k = n then some v else alistGet rest n

/-- Update of a name-keyed JavaScript Map: apply f to the value stored at n,
or to the default d when n is absent, inserting the new entry at the end.
This models the getOrDefault helper of the source followed by an in-place
mutation of the retrieved value. -/
def alistUpd {α : Type} : List (String × α) → String → (α → α) → α → List (String × α)
  | [], n, f, d => [(n, f d)]
  | (k, v) :: rest, n, f, d =>
    if k = n then (k, f v) :: rest else (k, v) :: alistUpd rest n f d

/-- Symbols recorded under a name in a name-to-symbol-list index; an absent
name yields the empty list. -/
def symsAt (m : List (String × List Sym)) (n : String) : List Sym :=
  (alistGet m n).getD []

/-- Lookup in a symbol-keyed JavaScript Map modelled as an association
list. -/
def symGet {α : Type} : List (Sym × α) → Sym → Option α
  | [], _ => none
  | (k, v) :: rest, s => if k = s then some v else symGet rest s

/-- Map.set on a symbol-keyed JavaScript Map: replace the value at an
existing key in place, otherwise append the new entry. -/
def symSet {α : Type} : List (Sym × α) → Sym → α → List (Sym × α)
  | [], s, p => [(s, p)]
  | (k, v) :: rest, s, p =>
    if k = s then (s, p) :: rest else (k, v) :: symSet rest s p

/-- Per-interface record of the Name Index, mirroring InterfaceInfo of the
source: symbols of the interface type accumulated across merged
declarations, construct-signature symbols, and a method-name-to-symbols
map. -/
structure InterfaceInfo where
  symbols : List Sym
  constructors : List Sym
  methods : List (String × List Sym)
  deriving DecidableEq

/-- Fresh InterfaceInfo, the default produced by getOrDefault for a newly
seen interface name. -/
def InterfaceInfo.empty : InterfaceInfo := ⟨[], [], []⟩

/-- The Name Index built by the declaration scanner: the identifiers,
functions and interfaces maps of the MacroManager constructor. -/
structure NameIndex where
  identifiers : List (String × List Sym)
  functions : List (String × List Sym)
  interfaces : List (String × InterfaceInfo)
  deriving DecidableEq

/-- The empty Name Index present before any file is scanned. -/
def NameIndex.empty : NameIndex := ⟨[], [], []⟩

/-- Scan of one declaration of a variable statement: a simple identifier
name appends declaration.symbol to the identifiers entry of that name; a
destructuring pattern records nothing. -/
def scanVarDecl (idx : NameIndex) (d : VarDecl) : NameIndex :=
  match d.name with
  | .ident nm =>
    { idx with identifiers := alistUpd idx.identifiers nm (fun l => l ++ [d.symbol]) [] }
  | .pattern => idx

/-- Scan of one interface member: an identifier-named method signature
appends the member type symbol to the methods entry of that method name; a
construct signature appends its symbol to the constructors list; all other
members are ignored. -/
def scanMember (info : InterfaceInfo) (m : Member) : InterfaceInfo :=
  match m with
  | .methodSig (.ident nm) tsym =>
    { info with methods := alistUpd info.methods nm (fun l => l ++ [tsym]) [] }
  | .methodSig .other _ => info
  | .constructSig s => { info with constructors := info.constructors ++ [s] }
  | .otherMember => info

/-- Scan of one top-level statement, following the statement loop of the
MacroManager constructor.  An unnamed function declaration makes the
non-null assertion statement.name! unsound and the subsequent member
access throw a runtime TypeError, modelled as MacroError.runtimeError. -/
def scanStatement (idx : NameIndex) : Statement → Except MacroError NameIndex
  | .varStatement ds => .ok (ds.foldl scanVarDecl idx)
  | .funcDecl none _ _ => .error .runtimeError
  | .funcDecl (some nm) _ tsym =>
    .ok { idx with functions := alistUpd idx.functions nm (fun l => l ++ [tsym]) [] }
  | .interfaceDecl nm tsym members =>
    let upd := fun (info : InterfaceInfo) =>
      members.foldl scanMember { info with symbols := info.symbols ++ [tsym] }
    .ok { idx with interfaces := alistUpd idx.interfaces nm upd InterfaceInfo.empty }
  | .otherStatement => .ok idx

/-- Scan of the statements of one declaration file, in source order. -/
def scanStatements (idx : NameIndex) : List Statement → Except MacroError NameIndex
  | [] => .ok idx
  | st :: rest =>
    match scanStatement idx st with
    | .error e => .error e
    | .ok idx2 => scanStatements idx2 rest

/-- Scan of the fixed declaration file list, in list order, starting from
the given index. -/
def scanFilesFrom (idx : NameIndex) : List (List Statement) → Except MacroError NameIndex
  | [] => .ok idx
  | f :: rest =>
    match scanStatements idx f with
    | .error e => .error e
    | .ok idx2 => scanFilesFrom idx2 rest

/-- The declaration scanner: fold all files into the empty Name Index. -/
def scanFiles (files : List (List Statement)) : Except MacroError NameIndex :=
  scanFilesFrom NameIndex.empty files

/-- True exactly when the declaration scanner succeeds on the given
files. -/
def scanSucceeds (files : List (List Statement)) : Bool :=
  match scanFiles files with
  | .ok _ => true
  | .error _ => false

/-- Message of the ProjectError thrown for an identifier-macro name absent
from the identifiers index. -/
def idErrMsg (n : String) : String :=
  "(MacroManager) No identifier found for " ++ n

/-- Message of the ProjectError thrown for a call-macro name absent from
the functions index. -/
def fnErrMsg (n : String) : String :=
  "(MacroManager) No function found for " ++ n

/-- Message of the ProjectError thrown for a constructor-macro or
property-call-macro interface name absent from the interfaces index. -/
def ifaceErrMsg (n : String) : String :=
  "(MacroManager) No interface found for " ++ n

/-- Message of the ProjectError thrown for a property-call-macro method
name absent from the methods of its interface entry. -/
def methodErrMsg (c m : String) : String :=
  "(MacroManager) No method found for " ++ c ++ "." ++ m

/-- Map.set for every symbol of a list, all to the same payload: the inner
loop of each binding pass of the MacroManager constructor. -/
def bindSymbols {α : Type} (acc : List (Sym × α)) (syms : List Sym) (p : α) : List (Sym × α) :=
  match syms with
  | [] => acc
  | s :: rest => bindSymbols (symSet acc s p) rest p

/-- One binding pass over a name-keyed macro table: look each name up with
the given lookup function, throw the formatted ProjectError when the name
is absent, otherwise bind every symbol of the entry to the payload.  The
identifier, call and constructor passes of the constructor, as well as the
per-interface method pass of the property-call table, are instances of
this. -/
def bindNameTable {α : Type} (lookupFn : String → Option (List Sym)) (fmt : String → String) :
    List (String × α) → List (Sym × α) → Except MacroError (List (Sym × α))
  | [], acc => .ok acc
  | (n, p) :: rest, acc =>
    match lookupFn n with
    | none => .error (.projectError (fmt n))
    | some syms => bindNameTable lookupFn fmt rest (bindSymbols acc syms p)

/-- The property-call binding pass: for each (interface name, method table)
entry, look the interface up (ProjectError when absent), then run a
name-table pass over the method table against that interface entry's
methods map. -/
def bindPropTable {δ : Type} (interfaces : List (String × InterfaceInfo)) :
    List (String × List (String × δ)) → List (Sym × δ) → Except MacroError (List (Sym × δ))
  | [], acc => .ok acc
  | (c, ms) :: rest, acc =>
    match alistGet interfaces c with
    | none => .error (.projectError (ifaceErrMsg c))
    | some info =>
      match bindNameTable (alistGet info.methods) (methodErrMsg c) ms acc with
      | .error e => .error e
      | .ok acc2 => bindPropTable interfaces rest acc2

/-- Lookup used by the constructor-macro pass: the construct-signature
symbols of the interface entry of a name, none when the interface name is
absent from the index. -/
def ctorLookup (interfaces : List (String × InterfaceInfo)) (c : String) : Option (List Sym) :=
  (alistGet interfaces c).map InterfaceInfo.constructors

/-- The four symbol-keyed output tables of the MacroManager, mirroring the
identifierMacros, callMacros, constructorMacros and propertyCallMacros
fields of the source class.  The four macro payload types are opaque. -/
structure MacroManager (α β γ δ : Type) where
  identifierMacros : List (Sym × α)
  callMacros : List (Sym × β)
  constructorMacros : List (Sym × γ)
  propertyCallMacros : List (Sym × δ)

/-- The MacroManager constructor: scan the declaration files into the Name
Index, then run the four binding passes in source order (identifier, call,
constructor, property-call), each starting from an empty output table.
The four macro tables are the entry lists of IDENTIFIER_MACROS,
CALL_MACROS, CONSTRUCTOR_MACROS and PROPERTY_CALL_MACROS, passed
explicitly. -/
def MacroManager.construct {α β γ δ : Type} (files : List (List Statement))
    (idTbl : List (String × α)) (callTbl : List (String × β))
    (ctorTbl : List (String × γ)) (propTbl : List (String × List (String × δ))) :
    Except MacroError (MacroManager α β γ δ) :=
  match scanFiles files with
  | .error e => .error e
  | .ok idx =>
    match bindNameTable (alistGet idx.identifiers) idErrMsg idTbl [] with
    | .error e => .error e
    | .ok im =>
      match bindNameTable (alistGet idx.functions) fnErrMsg callTbl [] with
      | .error e => .error e
      | .ok cm =>
        match bindNameTable (ctorLookup idx.interfaces) ifaceErrMsg ctorTbl [] with
        | .error e => .error e
        | .ok km =>
          match bindPropTable idx.interfaces propTbl [] with
          | .error e => .error e
          | .ok pm => .ok ⟨im, cm, km, pm⟩

/-- True exactly when construction succeeds (a registry value is
produced). -/
def constructOk {α β γ δ : Type} (files : List (List Statement))
    (idTbl : List (String × α)) (callTbl : List (String × β))
    (ctorTbl : List (String × γ)) (propTbl : List (String × List (String × δ))) : Bool :=
  match MacroManager.construct files idTbl callTbl ctorTbl propTbl with
  | .ok _ => true
  | .error _ => false

/-- Accessor getIdentifierMacro of the source: pure lookup in the
identifier output table. -/
def MacroManager.identifierMacroFor {α β γ δ : Type} (m : MacroManager α β γ δ) (s : Sym) : Option α :=
  symGet m.identifierMacros s

/-- Accessor getCallMacro of the source: pure lookup in the call output
table. -/
def MacroManager.callMacroFor {α β γ δ : Type} (m : MacroManager α β γ δ) (s : Sym) : Option β :=
  symGet m.callMacros s

/-- Accessor getConstructorMacro of the source: pure lookup in the
constructor output table. -/
def MacroManager.constructorMacroFor {α β γ δ : Type} (m : MacroManager α β γ δ) (s : Sym) : Option γ :=
  symGet m.constructorMacros s

/-- Accessor getPropertyCallMacro of the source: pure lookup in the
property-call output table. -/
def MacroManager.propertyCallMacroFor {α β γ δ : Type} (m : MacroManager α β γ δ) (s : Sym) : Option δ :=
  symGet m.propertyCallMacros s

/-- Construct-signature symbols recorded for an interface name; empty when
the name is absent. -/
def ctorSymsAt (interfaces : List (String × InterfaceInfo)) (c : String) : List Sym :=
  (ctorLookup interfaces c).getD []

/-- Symbols recorded for a method name of an interface name; empty when
either is absent. -/
def methodSymsAt (interfaces : List (String × InterfaceInfo)) (c m : String) : List Sym :=
  match alistGet interfaces c with
  | none => []
  | some info => symsAt info.methods m

/-- True exactly when the interfaces index has an entry for the interface
name c carrying a methods entry for the method name m. -/
def hasMethod (interfaces : List (String × InterfaceInfo)) (c m : String) : Bool :=
  match alistGet interfaces c with
  | none => false
  | some info => (alistGet info.methods m).isSome

/-- True on statements that are not an unnamed function declaration, the
precondition under which the scanner's non-null assertion is safe. -/
def namedIfFuncDecl : Statement → Bool
  | .funcDecl none _ _ => false
  | _ => true

/-- Lookup after Map.set: the set key now yields the new payload, every
other key is untouched. -/
theorem symGet_symSet {α : Type} (m : List (Sym × α)) (s : Sym) (p : α) (s2 : Sym) :
    symGet (symSet m s p) s2 = if s = s2 then some p else symGet m s2 := by
  induction m with
  | nil => by_cases h : s = s2 <;> simp [symSet, symGet, h]
  | cons head tail ih =>
    obtain ⟨k, v⟩ := head
    by_cases hk : k = s
    · subst hk
      by_cases h2 : k = s2 <;> simp [symSet, symGet, h2]
    · by_cases h2 : k = s2
      · subst h2
        have hs : ¬s = k := fun h => hk h.symm
        simp [symSet, symGet, hk, hs]
      · simp [symSet, symGet, hk, h2, ih]

/-- Lookup after binding a whole symbol list to one payload: a symbol of
the list yields the payload, any other symbol is untouched. -/
theorem symGet_bindSymbols {α : Type} (syms : List Sym) (acc : List (Sym × α)) (p : α) (s : Sym) :
    symGet (bindSymbols acc syms p) s = if s ∈ syms then some p else symGet acc s := by
  induction syms generalizing acc with
  | nil => simp [bindSymbols]
  | cons s0 rest ih =>
    simp only [bindSymbols]
    rw [ih]
    by_cases hr : s ∈ rest
    · simp [hr]
    · by_cases h0 : s0 = s
      · subst h0
        simp [hr, symGet_symSet]
      · have h0s : ¬s = s0 := fun h => h0 h.symm
        simp [hr, h0, h0s, symGet_symSet]

/-- Lookup after a Map update: the updated key yields f of its previous
value (or of the default), every other key is untouched. -/
theorem alistGet_alistUpd {α : Type} (m : List (String × α)) (n : String) (f : α → α) (d : α) (n2 : String) :
    alistGet (alistUpd m n f d) n2 =
      if n = n2 then some (f ((alistGet m n).getD d)) else alistGet m n2 := by
  induction m with
  | nil => by_cases h : n = n2 <;> simp [alistUpd, alistGet, h]
  | cons head tail ih =>
    obtain ⟨k, v⟩ := head
    by_cases hk : k = n
    · subst hk
      by_cases h2 : k = n2 <;> simp [alistUpd, alistGet, h2]
    · by_cases h2 : k = n2
      · subst h2
        have hn : ¬n = k := fun h => hk h.symm
        simp [alistUpd, alistGet, hk, hn]
      · simp [alistUpd, alistGet, hk, h2, ih]

/-- Two entries of a list whose keys are duplicate-free and share a key
carry the same payload. -/
theorem nodupKeys_payload_eq {α : Type} {l : List (String × α)}
    (h : (l.map Prod.fst).Nodup) {n : String} {p q : α}
    (hp : (n, p) ∈ l) (hq : (n, q) ∈ l) : p = q := by
  induction l with
  | nil => cases hp
  | cons a tail ih =>
    rw [List.map_cons, List.nodup_cons] at h
    rcases List.mem_cons.mp hp with hp1 | hp2
    · rcases List.mem_cons.mp hq with hq1 | hq2
      · rw [← hp1] at hq1
        exact congrArg Prod.snd hq1.symm
      · exfalso
        apply h.1
        rw [← hp1]
        have hm : (n, q).1 ∈ tail.map Prod.fst := List.mem_map_of_mem Prod.fst hq2
        exact hm
    · rcases List.mem_cons.mp hq with hq1 | hq2
      · exfalso
        apply h.1
        rw [← hq1]
        have hm : (n, p).1 ∈ tail.map Prod.fst := List.mem_map_of_mem Prod.fst hp2
        exact hm
      · exact ih h.2 hp2 hq2

/-- Frame property of a binding pass: a symbol recorded under none of the
names of the table keeps its previous binding. -/
theorem bindNameTable_ok_frame {α : Type} (lookupFn : String → Option (List Sym))
    (fmt : String → String) (tbl : List (String × α)) (acc fin : List (Sym × α)) (s : Sym)
    (hok : bindNameTable lookupFn fmt tbl acc = .ok fin)
    (hout : ∀ np ∈ tbl, s ∉ ((lookupFn np.1).getD [])) :
    symGet fin s = symGet acc s := by
  induction tbl generalizing acc with
  | nil =>
    simp only [bindNameTable, Except.ok.injEq] at hok
    rw [hok]
  | cons head rest ih =>
    obtain ⟨n, p⟩ := head
    cases hl : lookupFn n with
    | none => simp [bindNameTable, hl] at hok
    | some syms =>
      simp only [bindNameTable, hl] at hok
      have hs : s ∉ syms := by
        have := hout (n, p) (List.mem_cons_self _ _)
        rwa [hl, Option.getD_some] at this
      have hrest := ih (bindSymbols acc syms p) hok
        (fun np hnp => hout np (List.mem_cons_of_mem _ hnp))
      rw [hrest, symGet_bindSymbols, if_neg hs]

/-- Binding property of a binding pass: a symbol recorded under at least
one name of the table, all of whose covering entries carry payload p, is
bound to p afterwards. -/
theorem bindNameTable_ok_bound {α : Type} (lookupFn : String → Option (List Sym))
    (fmt : String → String) (tbl : List (String × α)) (acc fin : List (Sym × α)) (s : Sym) (p : α)
    (hok : bindNameTable lookupFn fmt tbl acc = .ok fin)
    (hcov : ∀ np ∈ tbl, s ∈ ((lookupFn np.1).getD []) → np.2 = p)
    (hmem : ∃ np ∈ tbl, s ∈ ((lookupFn np.1).getD [])) :
    symGet fin s = some p := by
  induction tbl generalizing acc with
  | nil => simp at hmem
  | cons head rest ih =>
    obtain ⟨n, q⟩ := head
    cases hl : lookupFn n with
    | none => simp [bindNameTable, hl] at hok
    | some syms =>
      simp only [bindNameTable, hl] at hok
      by_cases hrest : ∃ np ∈ rest, s ∈ ((lookupFn np.1).getD [])
      · exact ih _ hok (fun np hnp => hcov np (List.mem_cons_of_mem _ hnp)) hrest
      · obtain ⟨np, hnp, hsin⟩ := hmem
        push_neg at hrest
        rcases List.mem_cons.mp hnp with h1 | h2
        · have hsyms : s ∈ syms := by
            rw [h1, hl, Option.getD_some] at hsin
            exact hsin
          have hq : q = p := hcov (n, q) (List.mem_cons_self _ _) (by rw [hl, Option.getD_some]; exact hsyms)
          have hframe := bindNameTable_ok_frame lookupFn fmt rest _ fin s hok hrest
          rw [hframe, symGet_bindSymbols, if_pos hsyms, hq]
        · exact absurd hsin (hrest np h2)

/-- A successful binding pass implies every name of the table is present
in the index consulted by the lookup. -/
theorem bindNameTable_ok_present {α : Type} (lookupFn : String → Option (List Sym))
    (fmt : String → String) (tbl : List (String × α)) (acc fin : List (Sym × α))
    (hok : bindNameTable lookupFn fmt tbl acc = .ok fin) :
    ∀ np ∈ tbl, (lookupFn np.1).isSome = true := by
  induction tbl generalizing acc with
  | nil => intro np h; cases h
  | cons head rest ih =>
    obtain ⟨n, p⟩ := head
    cases hl : lookupFn n with
    | none => simp [bindNameTable, hl] at hok
    | some syms =>
      simp only [bindNameTable, hl] at hok
      intro np hnp
      rcases List.mem_cons.mp hnp with h1 | h2
      · rw [h1, hl]; rfl
      · exact ih _ hok np h2

/-- When every name of the table is present, a binding pass succeeds from
any accumulator. -/
theorem bindNameTable_present_ok {α : Type} (lookupFn : String → Option (List Sym))
    (fmt : String → String) (tbl : List (String × α))
    (hpres : ∀ np ∈ tbl, (lookupFn np.1).isSome = true) :
    ∀ acc, ∃ fin, bindNameTable lookupFn fmt tbl acc = .ok fin := by
  induction tbl with
  | nil => intro acc; exact ⟨acc, rfl⟩
  | cons head rest ih =>
    obtain ⟨n, p⟩ := head
    intro acc
    have hn := hpres (n, p) (List.mem_cons_self _ _)
    obtain ⟨syms, hl⟩ := Option.isSome_iff_exists.mp hn
    obtain ⟨fin, hfin⟩ := ih (fun np hnp => hpres np (List.mem_cons_of_mem _ hnp)) (bindSymbols acc syms p)
    exact ⟨fin, by simp only [bindNameTable, hl]; exact hfin⟩

/-- A binding pass whose table decomposes into a fully present prefix
followed by an absent name fails with the ProjectError formatted for
exactly that name. -/
theorem bindNameTable_first_miss {α : Type} (lookupFn : String → Option (List Sym))
    (fmt : String → String) (pre post : List (String × α)) (n : String) (p : α)
    (hpres : ∀ np ∈ pre, (lookupFn np.1).isSome = true)
    (hmiss : lookupFn n = none) :
    ∀ acc, bindNameTable lookupFn fmt (pre ++ (n, p) :: post) acc =
      .error (.projectError (fmt n)) := by
  induction pre with
  | nil => intro acc; simp [bindNameTable, hmiss]
  | cons head rest ih =>
    obtain ⟨k, q⟩ := head
    intro acc
    have hk := hpres (k, q) (List.mem_cons_self _ _)
    obtain ⟨syms, hl⟩ := Option.isSome_iff_exists.mp hk
    simp only [List.cons_append, bindNameTable, hl]
    exact ih (fun np hnp => hpres np (List.mem_cons_of_mem _ hnp)) (bindSymbols acc syms q)

/-- Presence of one property-call table entry: its interface name is in
the interfaces index and each of its method names is in that entry's
methods map. -/
def propEntryPresent {δ : Type} (interfaces : List (String × InterfaceInfo))
    (c : String) (ms : List (String × δ)) : Prop :=
  (alistGet interfaces c).isSome = true ∧ ∀ mp ∈ ms, hasMethod interfaces c mp.1 = true

/-- Presence of every entry of a property-call table. -/
def propPresent {δ : Type} (interfaces : List (String × InterfaceInfo))
    (tbl : List (String × List (String × δ))) : Prop :=
  ∀ cms ∈ tbl, propEntryPresent interfaces cms.1 cms.2

/-- Frame property of the property-call pass: a symbol recorded under none
of the (interface, method) pairs of the table keeps its previous
binding. -/
theorem bindPropTable_ok_frame {δ : Type} (interfaces : List (String × InterfaceInfo))
    (tbl : List (String × List (String × δ))) (acc fin : List (Sym × δ)) (s : Sym)
    (hok : bindPropTable interfaces tbl acc = .ok fin)
    (hout : ∀ cms ∈ tbl, ∀ mp ∈ cms.2, s ∉ methodSymsAt interfaces cms.1 mp.1) :
    symGet fin s = symGet acc s := by
  induction tbl generalizing acc with
  | nil =>
    simp only [bindPropTable, Except.ok.injEq] at hok
    rw [hok]
  | cons head rest ih =>
    obtain ⟨c, ms⟩ := head
    cases hinfo : alistGet interfaces c with
    | none => simp [bindPropTable, hinfo] at hok
    | some info =>
      cases hinner : bindNameTable (alistGet info.methods) (methodErrMsg c) ms acc with
      | error e => simp [bindPropTable, hinfo, hinner] at hok
      | ok acc2 =>
        simp only [bindPropTable, hinfo, hinner] at hok
        have hin : symGet acc2 s = symGet acc s := by
          apply bindNameTable_ok_frame _ _ _ _ _ _ hinner
          intro mp hmp
          have := hout (c, ms) (List.mem_cons_self _ _) mp hmp
          simpa [methodSymsAt, hinfo, symsAt] using this
        rw [ih acc2 hok (fun cms hcms => hout cms (List.mem_cons_of_mem _ hcms)), hin]

/-- Binding property of the property-call pass: a symbol recorded under at
least one (interface, method) pair of the table, all of whose covering
pairs carry payload p, is bound to p afterwards. -/
theorem bindPropTable_ok_bound {δ : Type} (interfaces : List (String × InterfaceInfo))
    (tbl : List (String × List (String × δ))) (acc fin : List (Sym × δ)) (s : Sym) (p : δ)
    (hok : bindPropTable interfaces tbl acc = .ok fin)
    (hcov : ∀ cms ∈ tbl, ∀ mp ∈ cms.2, s ∈ methodSymsAt interfaces cms.1 mp.1 → mp.2 = p)
    (hmem : ∃ cms ∈ tbl, ∃ mp ∈ cms.2, s ∈ methodSymsAt interfaces cms.1 mp.1) :
    symGet fin s = some p := by
  induction tbl generalizing acc with
  | nil => simp at hmem
  | cons head rest ih =>
    obtain ⟨c, ms⟩ := head
    cases hinfo : alistGet interfaces c with
    | none => simp [bindPropTable, hinfo] at hok
    | some info =>
      cases hinner : bindNameTable (alistGet info.methods) (methodErrMsg c) ms acc with
      | error e => simp [bindPropTable, hinfo, hinner] at hok
      | ok acc2 =>
        simp only [bindPropTable, hinfo, hinner] at hok
        by_cases hrest : ∃ cms ∈ rest, ∃ mp ∈ cms.2, s ∈ methodSymsAt interfaces cms.1 mp.1
        · exact ih _ hok (fun cms hcms => hcov cms (List.mem_cons_of_mem _ hcms)) hrest
        · push_neg at hrest
          obtain ⟨cms, hcms, mp, hmp, hsin⟩ := hmem
          rcases List.mem_cons.mp hcms with h1 | h2
          · subst h1
            have hin : symGet acc2 s = some p := by
              apply bindNameTable_ok_bound _ _ _ _ _ _ _ hinner
              · intro mq hmq hsq
                apply hcov (c, ms) (List.mem_cons_self _ _) mq hmq
                simpa [methodSymsAt, hinfo, symsAt] using hsq
              · refine ⟨mp, hmp, ?_⟩
                simpa [methodSymsAt, hinfo, symsAt] using hsin
            have hframe := bindPropTable_ok_frame interfaces rest _ fin s hok
              (fun cms2 hcms2 mp2 hmp2 => hrest cms2 hcms2 mp2 hmp2)
            rw [hframe, hin]
          · exact absurd hsin (hrest cms h2 mp hmp)

/-- A successful property-call pass implies presence of every table
entry. -/
theorem bindPropTable_ok_present {δ : Type} (interfaces : List (String × InterfaceInfo))
    (tbl : List (String × List (String × δ))) (acc fin : List (Sym × δ))
    (hok : bindPropTable interfaces tbl acc = .ok fin) :
    propPresent interfaces tbl := by
  induction tbl generalizing acc with
  | nil => intro cms h; cases h
  | cons head rest ih =>
    obtain ⟨c, ms⟩ := head
    cases hinfo : alistGet interfaces c with
    | none => simp [bindPropTable, hinfo] at hok
    | some info =>
      cases hinner : bindNameTable (alistGet info.methods) (methodErrMsg c) ms acc with
      | error e => simp [bindPropTable, hinfo, hinner] at hok
      | ok acc2 =>
        simp only [bindPropTable, hinfo, hinner] at hok
        intro cms hcms
        rcases List.mem_cons.mp hcms with h1 | h2
        · subst h1
          constructor
          · rw [hinfo]; rfl
          · intro mp hmp
            have := bindNameTable_ok_present _ _ _ _ _ hinner mp hmp
            simp [hasMethod, hinfo, this]
        · exact ih _ hok cms h2

/-- When every entry is present, the property-call pass succeeds from any
accumulator. -/
theorem bindPropTable_present_ok {δ : Type} (interfaces : List (String × InterfaceInfo))
    (tbl : List (String × List (String × δ)))
    (hpres : propPresent interfaces tbl) :
    ∀ acc, ∃ fin, bindPropTable interfaces tbl acc = .ok fin := by
  induction tbl with
  | nil => intro acc; exact ⟨acc, rfl⟩
  | cons head rest ih =>
    obtain ⟨c, ms⟩ := head
    intro acc
    obtain ⟨hiface, hms⟩ := hpres (c, ms) (List.mem_cons_self _ _)
    obtain ⟨info, hinfo⟩ := Option.isSome_iff_exists.mp hiface
    have hmpres : ∀ mp ∈ ms, ((alistGet info.methods mp.1).isSome = true) := by
      intro mp hmp
      have := hms mp hmp
      simpa [hasMethod, hinfo] using this
    obtain ⟨acc2, hacc2⟩ := bindNameTable_present_ok (alistGet info.methods) (methodErrMsg c) ms hmpres acc
    obtain ⟨fin, hfin⟩ := ih (fun cms hcms => hpres cms (List.mem_cons_of_mem _ hcms)) acc2
    refine ⟨fin, ?_⟩
    simp only [bindPropTable, hinfo, hacc2]
    exact hfin

/-- A property-call pass whose table decomposes into a fully present
prefix followed by an entry with an absent interface name fails with the
ProjectError naming exactly that interface. -/
theorem bindPropTable_miss_iface {δ : Type} (interfaces : List (String × InterfaceInfo))
    (pre post : List (String × List (String × δ))) (c : String) (ms : List (String × δ))
    (hpre : propPresent interfaces pre)
    (hmiss : alistGet interfaces c = none) :
    ∀ acc, bindPropTable interfaces (pre ++ (c, ms) :: post) acc =
      .error (.projectError (ifaceErrMsg c)) := by
  induction pre with
  | nil => intro acc; simp [bindPropTable, hmiss]
  | cons head rest ih =>
    obtain ⟨c0, ms0⟩ := head
    intro acc
    obtain ⟨hiface, hms⟩ := hpre (c0, ms0) (List.mem_cons_self _ _)
    obtain ⟨info, hinfo⟩ := Option.isSome_iff_exists.mp hiface
    have hmpres : ∀ mp ∈ ms0, ((alistGet info.methods mp.1).isSome = true) := by
      intro mp hmp
      have := hms mp hmp
      simpa [hasMethod, hinfo] using this
    obtain ⟨acc2, hacc2⟩ := bindNameTable_present_ok (alistGet info.methods) (methodErrMsg c0) ms0 hmpres acc
    simp only [List.cons_append, bindPropTable, hinfo, hacc2]
    exact ih (fun cms hcms => hpre cms (List.mem_cons_of_mem _ hcms)) acc2

/-- A property-call pass whose table decomposes into a fully present
prefix followed by an entry whose interface is present but whose method
table has a fully present prefix followed by an absent method name fails
with the ProjectError naming exactly that interface.method pair. -/
theorem bindPropTable_miss_method {δ : Type} (interfaces : List (String × InterfaceInfo))
    (pre post : List (String × List (String × δ))) (c : String) (info : InterfaceInfo)
    (mpre mpost : List (String × δ)) (m : String) (p : δ)
    (hpre : propPresent interfaces pre)
    (hinfo : alistGet interfaces c = some info)
    (hmpres : ∀ mp ∈ mpre, ((alistGet info.methods mp.1).isSome = true))
    (hmmiss : alistGet info.methods m = none) :
    ∀ acc, bindPropTable interfaces (pre ++ (c, mpre ++ (m, p) :: mpost) :: post) acc =
      .error (.projectError (methodErrMsg c m)) := by
  induction pre with
  | nil =>
    intro acc
    have hinner := bindNameTable_first_miss (alistGet info.methods) (methodErrMsg c)
      mpre mpost m p hmpres hmmiss acc
    simp only [List.nil_append, bindPropTable, hinfo, hinner]
  | cons head rest ih =>
    obtain ⟨c0, ms0⟩ := head
    intro acc
    obtain ⟨hiface, hms⟩ := hpre (c0, ms0) (List.mem_cons_self _ _)
    obtain ⟨info0, hinfo0⟩ := Option.isSome_iff_exists.mp hiface
    have hmpres0 : ∀ mp ∈ ms0, ((alistGet info0.methods mp.1).isSome = true) := by
      intro mp hmp
      have := hms mp hmp
      simpa [hasMethod, hinfo0] using this
    obtain ⟨acc2, hacc2⟩ := bindNameTable_present_ok (alistGet info0.methods) (methodErrMsg c0) ms0 hmpres0 acc
    simp only [List.cons_append, bindPropTable, hinfo0, hacc2]
    exact ih (fun cms hcms => hpre cms (List.mem_cons_of_mem _ hcms)) acc2

/-- A successful construction decomposes into the four successful binding
passes over the Name Index produced by the scanner, each yielding the
corresponding output table of the resulting manager. -/
theorem construct_phases {α β γ δ : Type} (files : List (List Statement))
    (idTbl : List (String × α)) (callTbl : List (String × β))
    (ctorTbl : List (String × γ)) (propTbl : List (String × List (String × δ)))
    (idx : NameIndex) (mgr : MacroManager α β γ δ)
    (hscan : scanFiles files = .ok idx)
    (hok : MacroManager.construct files idTbl callTbl ctorTbl propTbl = .ok mgr) :
    bindNameTable (alistGet idx.identifiers) idErrMsg idTbl [] = .ok mgr.identifierMacros ∧
    bindNameTable (alistGet idx.functions) fnErrMsg callTbl [] = .ok mgr.callMacros ∧
    bindNameTable (ctorLookup idx.interfaces) ifaceErrMsg ctorTbl [] = .ok mgr.constructorMacros ∧
    bindPropTable idx.interfaces propTbl [] = .ok mgr.propertyCallMacros := by
  unfold MacroManager.construct at hok
  rw [hscan] at hok
  cases h1 : bindNameTable (alistGet idx.identifiers) idErrMsg idTbl [] with
  | error e => simp [h1] at hok
  | ok im =>
    simp only [h1] at hok
    cases h2 : bindNameTable (alistGet idx.functions) fnErrMsg callTbl [] with
    | error e => simp [h2] at hok
    | ok cm =>
      simp only [h2] at hok
      cases h3 : bindNameTable (ctorLookup idx.interfaces) ifaceErrMsg ctorTbl [] with
      | error e => simp [h3] at hok
      | ok km =>
        simp only [h3] at hok
        cases h4 : bindPropTable idx.interfaces propTbl [] with
        | error e => simp [h4] at hok
        | ok pm =>
          simp only [h4, Except.ok.injEq] at hok
          subst hok
          exact ⟨rfl, rfl, rfl, rfl⟩

/-- A statement satisfying the named-function-declaration precondition is
scanned without error. -/
theorem scanStatement_ok_of_named (idx : NameIndex) (st : Statement)
    (h : namedIfFuncDecl st = true) : ∃ idx2, scanStatement idx st = .ok idx2 := by
  cases st with
  | varStatement ds => exact ⟨_, rfl⟩
  | funcDecl name d t =>
    cases name with
    | none => simp [namedIfFuncDecl] at h
    | some nm => exact ⟨_, rfl⟩
  | interfaceDecl nm ts members => exact ⟨_, rfl⟩
  | otherStatement => exact ⟨_, rfl⟩

/-- A statement list all of whose elements satisfy the precondition is
scanned without error from any index. -/
theorem scanStatements_ok_of_named (sts : List Statement)
    (h : ∀ st ∈ sts, namedIfFuncDecl st = true) :
    ∀ idx, ∃ idx2, scanStatements idx sts = .ok idx2 := by
  induction sts with
  | nil => intro idx; exact ⟨idx, rfl⟩
  | cons st rest ih =>
    intro idx
    obtain ⟨idx2, h2⟩ := scanStatement_ok_of_named idx st (h st (List.mem_cons_self _ _))
    obtain ⟨idx3, h3⟩ := ih (fun s hs => h s (List.mem_cons_of_mem _ hs)) idx2
    refine ⟨idx3, ?_⟩
    simp only [scanStatements, h2]
    exact h3

/-- A file list all of whose statements satisfy the precondition is
scanned without error from any index. -/
theorem scanFilesFrom_ok_of_named (files : List (List Statement))
    (h : ∀ sts ∈ files, ∀ st ∈ sts, namedIfFuncDecl st = true) :
    ∀ idx, ∃ idx2, scanFilesFrom idx files = .ok idx2 := by
  induction files with
  | nil => intro idx; exact ⟨idx, rfl⟩
  | cons f rest ih =>
    intro idx
    obtain ⟨idx2, h2⟩ := scanStatements_ok_of_named f (h f (List.mem_cons_self _ _)) idx
    obtain ⟨idx3, h3⟩ := ih (fun s hs => h s (List.mem_cons_of_mem _ hs)) idx2
    refine ⟨idx3, ?_⟩
    simp only [scanFilesFrom, h2]
    exact h3

/-- Folding the variable declarations of a statement is the same as
folding only those with identifier names: a destructuring pattern
contributes nothing. -/
theorem foldl_scanVarDecl_filter (ds : List VarDecl) :
    ∀ idx, ds.foldl scanVarDecl idx =
      (ds.filter (fun d => d.name.isIdentName)).foldl scanVarDecl idx := by
  induction ds with
  | nil => intro idx; rfl
  | cons d rest ih =>
    intro idx
    cases hd : d.name with
    | ident nm =>
      have hb : d.name.isIdentName = true := by rw [hd]; rfl
      simp only [List.foldl_cons, List.filter_cons, hb, if_pos]
      exact ih (scanVarDecl idx d)
    | pattern =>
      have hb : ¬(d.name.isIdentName = true) := by rw [hd]; simp [BindingName.isIdentName]
      have hskip : scanVarDecl idx d = idx := by simp [scanVarDecl, hd]
      simp only [List.foldl_cons, List.filter_cons, hb, if_neg, hskip]
      exact ih idx

/-- True on the interface members the scanner records: identifier-named
method signatures and construct signatures. -/
def Member.isScannedMember : Member → Bool
  | .methodSig (.ident _) _ => true
  | .methodSig .other _ => false
  | .constructSig _ => true
  | .otherMember => false

/-- Folding the members of an interface declaration is the same as folding
only the recorded members: non-identifier method names and other member
kinds contribute nothing. -/
theorem foldl_scanMember_filter (members : List Member) :
    ∀ info, members.foldl scanMember info =
      (members.filter Member.isScannedMember).foldl scanMember info := by
  induction members with
  | nil => intro info; rfl
  | cons m rest ih =>
    intro info
    cases m with
    | methodSig name tsym =>
      cases name with
      | ident nm =>
        simp only [List.foldl_cons, List.filter_cons, Member.isScannedMember, if_pos]
        exact ih (scanMember info (.methodSig (.ident nm) tsym))
      | other =>
        have hskip : scanMember info (.methodSig .other tsym) = info := rfl
        simp only [List.foldl_cons, List.filter_cons, Member.isScannedMember, hskip]
        exact ih info
    | constructSig s =>
      simp only [List.foldl_cons, List.filter_cons, Member.isScannedMember, if_pos]
      exact ih (scanMember info (.constructSig s))
    | otherMember =>
      have hskip : scanMember info .otherMember = info := rfl
      simp only [List.foldl_cons, List.filter_cons, Member.isScannedMember, hskip]
      exact ih info

/-- A symbol-keyed lookup yields none exactly when the symbol is not among
the keys of the table. -/
theorem symGet_eq_none_iff {α : Type} (m : List (Sym × α)) (s : Sym) :
    symGet m s = none ↔ (m.map Prod.fst).contains s = false := by
  induction m with
  | nil => simp [symGet]
  | cons head rest ih =>
    obtain ⟨k, v⟩ := head
    by_cases hk : k = s
    · subst hk
      simp [symGet, List.contains_cons]
    · simp [symGet, hk, List.contains_cons, ih, Ne.symm hk]

/-- Claim C10: for every path string, isCompilableFile returns true exactly
when the path ends with .ts or .tsx and does not end with .d.ts; in
particular a path ending in .d.ts is rejected. -/
theorem isCompilableFile_iff_ts_or_tsx_not_dts (s : String) :
    (isCompilableFile s =
      ((strEndsWith s (".ts") || strEndsWith s (".tsx")) && !(strEndsWith s (".d.ts")))) ∧
    (strEndsWith s (".d.ts") = true → isCompilableFile s = false) := by
  constructor
  · unfold isCompilableFile TS_EXT TSX_EXT DTS_EXT
    by_cases h : strEndsWith s (".d.ts") = true
    · simp [h]
    · rw [Bool.not_eq_true] at h
      simp [h]
  · intro h
    unfold isCompilableFile DTS_EXT
    simp [h]

/-- Witness for claim C10 at the path a.d.ts, which ends with .d.ts and
also ends with .ts, yet is rejected. -/
theorem isCompilableFile_dts_witness :
    strEndsWith ("a.d.ts") (".d.ts") = true ∧ strEndsWith ("a.d.ts") (".ts") = true ∧
    isCompilableFile ("a.d.ts") = false :=
  ⟨by decide, by decide, (isCompilableFile_iff_ts_or_tsx_not_dts ("a.d.ts")).2 (by decide)⟩

/-- Claim C5: each of the four accessors is a total pure lookup on its
output table: it yields none exactly when the queried symbol is absent
from that table's keys, so a symbol that was never bound yields the
explicit no-macro result rather than an error. -/
theorem accessor_lookups_none_iff_unbound {α β γ δ : Type} (mgr : MacroManager α β γ δ) (s : Sym) :
    (mgr.identifierMacroFor s = none ↔ (mgr.identifierMacros.map Prod.fst).contains s = false) ∧
    (mgr.callMacroFor s = none ↔ (mgr.callMacros.map Prod.fst).contains s = false) ∧
    (mgr.constructorMacroFor s = none ↔ (mgr.constructorMacros.map Prod.fst).contains s = false) ∧
    (mgr.propertyCallMacroFor s = none ↔ (mgr.propertyCallMacros.map Prod.fst).contains s = false) :=
  ⟨symGet_eq_none_iff _ s, symGet_eq_none_iff _ s, symGet_eq_none_iff _ s, symGet_eq_none_iff _ s⟩

/-- Claim C6: scanning a named function declaration appends the symbol of
the statement's resolved type to the functions index under the declared
name; the result is independent of the statement's own declaration
symbol. -/
theorem funcDecl_scan_records_type_symbol (idx : NameIndex) (nm : String) (dSym tSym : Sym) :
    (scanStatement idx (.funcDecl (some nm) dSym tSym) =
      .ok { idx with functions := alistUpd idx.functions nm (fun l => l ++ [tSym]) [] }) ∧
    (symsAt (alistUpd idx.functions nm (fun l => l ++ [tSym]) []) nm =
      symsAt idx.functions nm ++ [tSym]) ∧
    (∀ dSym2 : Sym, scanStatement idx (.funcDecl (some nm) dSym tSym) =
      scanStatement idx (.funcDecl (some nm) dSym2 tSym)) := by
  refine ⟨rfl, ?_, fun _ => rfl⟩
  unfold symsAt
  rw [alistGet_alistUpd]
  simp

/-- Claim C8: the scanner records a variable binding only for simple
identifier names (destructuring patterns contribute nothing), records an
interface member only for identifier-named method signatures and construct
signatures, and ignores every other top-level statement kind. -/
theorem scanner_restricts_to_simple_shapes :
    (∀ idx : NameIndex, scanStatement idx .otherStatement = .ok idx) ∧
    (∀ (idx : NameIndex) (ds : List VarDecl),
      scanStatement idx (.varStatement ds) =
        scanStatement idx (.varStatement (ds.filter (fun d => d.name.isIdentName)))) ∧
    (∀ (idx : NameIndex) (nm : String) (tsym : Sym) (members : List Member),
      scanStatement idx (.interfaceDecl nm tsym members) =
        scanStatement idx (.interfaceDecl nm tsym (members.filter Member.isScannedMember))) := by
  refine ⟨fun idx => rfl, ?_, ?_⟩
  · intro idx ds
    simp only [scanStatement]
    rw [foldl_scanVarDecl_filter]
  · intro idx nm tsym members
    have hfun : (fun (info : InterfaceInfo) =>
        members.foldl scanMember { info with symbols := info.symbols ++ [tsym] }) =
        (fun (info : InterfaceInfo) =>
          (members.filter Member.isScannedMember).foldl scanMember
            { info with symbols := info.symbols ++ [tsym] }) :=
      funext fun info => foldl_scanMember_filter members _
    simp only [scanStatement]
    rw [hfun]

/-- Claim C9: under the precondition that every function declaration of
every scanned file carries a name, the scanner runs to completion; an
unnamed function declaration instead fails with the runtime error of the
non-null assertion, which is not a ProjectError of the configuration-error
taxonomy. -/
theorem scan_total_when_function_declarations_named (files : List (List Statement))
    (h : ∀ sts ∈ files, ∀ st ∈ sts, namedIfFuncDecl st = true) :
    scanSucceeds files = true ∧
    (∀ (idx : NameIndex) (dSym tSym : Sym),
      scanStatement idx (.funcDecl none dSym tSym) = .error .runtimeError) ∧
    (∀ msg : String, MacroError.runtimeError ≠ MacroError.projectError msg) := by
  refine ⟨?_, fun idx d t => rfl, fun msg hmsg => by cases hmsg⟩
  obtain ⟨idx2, h2⟩ := scanFilesFrom_ok_of_named files h NameIndex.empty
  unfold scanSucceeds scanFiles
  rw [h2]

/-- Witness for claim C9: a singleton file whose only statements are a
named function declaration and an interface declaration satisfies the
precondition and scans successfully. -/
theorem scan_totality_witness :
    namedIfFuncDecl (.funcDecl (some ("g")) 1 2) = true ∧
    scanSucceeds [[.funcDecl (some ("g")) 1 2, .otherStatement]] = true :=
  ⟨by decide,
    (scan_total_when_function_declarations_named
      [[.funcDecl (some ("g")) 1 2, .otherStatement]] (by decide)).1⟩

/-- Declaration file of the claim-C7 scenario: an interface Array with a
push method (type symbol 10) merged with a later interface Array with a
pop method (type symbol 20); interface type symbols 90 and 91. -/
def filesC7 : List (List Statement) :=
  [[.interfaceDecl ("Array") 90 [.methodSig (.ident ("push")) 10],
    .interfaceDecl ("Array") 91 [.methodSig (.ident ("pop")) 20]]]

/-- Property-call table of the claim-C7 scenario: only Array.push is
bound, to payload tag 1. -/
def propTblC7 : List (String × List (String × Nat)) := [(("Array"), [(("push"), 1)])]

/-- Claim C7: in the merged-Array scenario with a property-call entry for
push only, construction succeeds, the push method symbol is bound to the
configured payload, and the pop method symbol of the merged declaration
yields no macro. -/
theorem property_call_binding_frames_other_methods :
    (MacroManager.construct filesC7 ([] : List (String × Nat)) ([] : List (String × Nat))
        ([] : List (String × Nat)) propTblC7).map
      (fun mgr => (mgr.propertyCallMacroFor 10, mgr.propertyCallMacroFor 20)) =
      .ok (some 1, none) := by
  rfl

/-- Claim C1: after successful construction, every symbol the scanner
recorded under a name of the identifier-macro table is mapped in the
identifier output table to exactly the configured payload, and likewise
for the call-macro table against the functions index.  The side conditions
state that the table keys are duplicate-free (they are the keys of a
JavaScript object) and that the queried symbol is not recorded under any
other bound name (resolved symbols are per-declaration identities). -/
theorem identifier_and_call_tables_bind_every_recorded_symbol
    {α β γ δ : Type} (files : List (List Statement))
    (idTbl : List (String × α)) (callTbl : List (String × β))
    (ctorTbl : List (String × γ)) (propTbl : List (String × List (String × δ)))
    (idx : NameIndex) (mgr : MacroManager α β γ δ)
    (hscan : scanFiles files = .ok idx)
    (hok : MacroManager.construct files idTbl callTbl ctorTbl propTbl = .ok mgr) :
    (∀ (n : String) (p : α) (s : Sym), (n, p) ∈ idTbl → s ∈ symsAt idx.identifiers n →
      (idTbl.map Prod.fst).Nodup →
      (∀ np ∈ idTbl, np.1 ≠ n → s ∉ symsAt idx.identifiers np.1) →
      mgr.identifierMacroFor s = some p) ∧
    (∀ (n : String) (p : β) (s : Sym), (n, p) ∈ callTbl → s ∈ symsAt idx.functions n →
      (callTbl.map Prod.fst).Nodup →
      (∀ np ∈ callTbl, np.1 ≠ n → s ∉ symsAt idx.functions np.1) →
      mgr.callMacroFor s = some p) := by
  obtain ⟨h1, h2, h3, h4⟩ := construct_phases files idTbl callTbl ctorTbl propTbl idx mgr hscan hok
  constructor
  · intro n p s hmem hs hkeys hdisj
    apply bindNameTable_ok_bound (alistGet idx.identifiers) idErrMsg idTbl [] _ s p h1
    · rintro ⟨n2, q⟩ hnp hsnp
      by_cases hne : n2 = n
      · subst hne
        exact nodupKeys_payload_eq hkeys hnp hmem
      · exact absurd hsnp (hdisj (n2, q) hnp hne)
    · exact ⟨(n, p), hmem, hs⟩
  · intro n p s hmem hs hkeys hdisj
    apply bindNameTable_ok_bound (alistGet idx.functions) fnErrMsg callTbl [] _ s p h2
    · rintro ⟨n2, q⟩ hnp hsnp
      by_cases hne : n2 = n
      · subst hne
        exact nodupKeys_payload_eq hkeys hnp hmem
      · exact absurd hsnp (hdisj (n2, q) hnp hne)
    · exact ⟨(n, p), hmem, hs⟩

/-- Declaration file of the claim-C1 witness: a variable print (symbol 1)
and a function f declared with two overload signatures whose resolved
types carry symbols 2 and 3 (declaration symbols 50 and 51). -/
def filesC1 : List (List Statement) :=
  [[.varStatement [⟨.ident ("print"), 1⟩],
    .funcDecl (some ("f")) 50 2,
    .funcDecl (some ("f")) 51 3]]

/-- Name Index produced by scanning filesC1. -/
def idxC1 : NameIndex := ⟨[(("print"), [1])], [(("f"), [2, 3])], []⟩

/-- Identifier-macro table of the claim-C1 witness. -/
def idTblC1 : List (String × Nat) := [(("print"), 100)]

/-- Call-macro table of the claim-C1 witness. -/
def callTblC1 : List (String × Nat) := [(("f"), 200)]

/-- Macro manager produced by constructing over filesC1. -/
def mgrC1 : MacroManager Nat Nat Nat Nat := ⟨[(1, 100)], [(2, 200), (3, 200)], [], []⟩

/-- Witness for claim C1: the print symbol is bound to its payload and
both overload symbols of f are bound to the call payload. -/
theorem identifier_and_call_binding_witness :
    mgrC1.identifierMacroFor 1 = some 100 ∧
    mgrC1.callMacroFor 2 = some 200 ∧ mgrC1.callMacroFor 3 = some 200 := by
  have h := identifier_and_call_tables_bind_every_recorded_symbol filesC1 idTblC1 callTblC1
    ([] : List (String × Nat)) ([] : List (String × List (String × Nat))) idxC1 mgrC1 rfl rfl
  exact ⟨h.1 ("print") 100 1 (by decide) (by decide) (by decide) (by decide),
    h.2 ("f") 200 2 (by decide) (by decide) (by decide) (by decide),
    h.2 ("f") 200 3 (by decide) (by decide) (by decide) (by decide)⟩

/-- Claim C4: after successful construction, every construct-signature
symbol recorded for an interface name of the constructor-macro table,
including signatures contributed by merged declarations of that name, is
mapped in the constructor output table to the configured payload.  Side
conditions as in claim C1. -/
theorem constructor_table_binds_every_construct_signature
    {α β γ δ : Type} (files : List (List Statement))
    (idTbl : List (String × α)) (callTbl : List (String × β))
    (ctorTbl : List (String × γ)) (propTbl : List (String × List (String × δ)))
    (idx : NameIndex) (mgr : MacroManager α β γ δ)
    (hscan : scanFiles files = .ok idx)
    (hok : MacroManager.construct files idTbl callTbl ctorTbl propTbl = .ok mgr) :
    ∀ (c : String) (p : γ) (s : Sym), (c, p) ∈ ctorTbl → s ∈ ctorSymsAt idx.interfaces c →
      (ctorTbl.map Prod.fst).Nodup →
      (∀ cp ∈ ctorTbl, cp.1 ≠ c → s ∉ ctorSymsAt idx.interfaces cp.1) →
      mgr.constructorMacroFor s = some p := by
  obtain ⟨h1, h2, h3, h4⟩ := construct_phases files idTbl callTbl ctorTbl propTbl idx mgr hscan hok
  intro c p s hmem hs hkeys hdisj
  apply bindNameTable_ok_bound (ctorLookup idx.interfaces) ifaceErrMsg ctorTbl [] _ s p h3
  · rintro ⟨c2, q⟩ hcp hsnp
    by_cases hne : c2 = c
    · subst hne
      exact nodupKeys_payload_eq hkeys hcp hmem
    · exact absurd hsnp (hdisj (c2, q) hcp hne)
  · exact ⟨(c, p), hmem, hs⟩

/-- Declaration file of the claim-C4 witness: an interface X declared
twice (merged), the first declaration contributing a construct signature
with symbol 5, the second one with symbol 6. -/
def filesC4 : List (List Statement) :=
  [[.interfaceDecl ("X") 80 [.constructSig 5],
    .interfaceDecl ("X") 81 [.constructSig 6]]]

/-- Name Index produced by scanning filesC4. -/
def idxC4 : NameIndex := ⟨[], [], [(("X"), ⟨[80, 81], [5, 6], []⟩)]⟩

/-- Constructor-macro table of the claim-C4 witness. -/
def ctorTblC4 : List (String × Nat) := [(("X"), 300)]

/-- Macro manager produced by constructing over filesC4. -/
def mgrC4 : MacroManager Nat Nat Nat Nat := ⟨[], [], [(5, 300), (6, 300)], []⟩

/-- Witness for claim C4: both construct-signature symbols of the merged
interface X are bound to the configured payload. -/
theorem constructor_merged_interface_witness :
    mgrC4.constructorMacroFor 5 = some 300 ∧ mgrC4.constructorMacroFor 6 = some 300 := by
  have h := constructor_table_binds_every_construct_signature filesC4
    ([] : List (String × Nat)) ([] : List (String × Nat)) ctorTblC4
    ([] : List (String × List (String × Nat))) idxC4 mgrC4 rfl rfl
  exact ⟨h ("X") 300 5 (by decide) (by decide) (by decide) (by decide),
    h ("X") 300 6 (by decide) (by decide) (by decide) (by decide)⟩

/-- Claim C3: after successful construction, every symbol recorded in an
interface entry's method list for a method name of the property-call
table, accumulated across overloads and merged declarations, is mapped in
the property-call output table to the configured payload.  Side
conditions: duplicate-free interface keys and per-interface method keys,
and the queried symbol is recorded under no other bound
(interface, method) pair. -/
theorem property_call_table_binds_every_method_symbol
    {α β γ δ : Type} (files : List (List Statement))
    (idTbl : List (String × α)) (callTbl : List (String × β))
    (ctorTbl : List (String × γ)) (propTbl : List (String × List (String × δ)))
    (idx : NameIndex) (mgr : MacroManager α β γ δ)
    (hscan : scanFiles files = .ok idx)
    (hok : MacroManager.construct files idTbl callTbl ctorTbl propTbl = .ok mgr) :
    ∀ (c : String) (ms : List (String × δ)) (m : String) (p : δ) (s : Sym),
      (c, ms) ∈ propTbl → (m, p) ∈ ms → s ∈ methodSymsAt idx.interfaces c m →
      (propTbl.map Prod.fst).Nodup →
      (∀ cms ∈ propTbl, (cms.2.map Prod.fst).Nodup) →
      (∀ cms ∈ propTbl, ∀ mp ∈ cms.2, ¬(cms.1 = c ∧ mp.1 = m) →
        s ∉ methodSymsAt idx.interfaces cms.1 mp.1) →
      mgr.propertyCallMacroFor s = some p := by
  obtain ⟨h1, h2, h3, h4⟩ := construct_phases files idTbl callTbl ctorTbl propTbl idx mgr hscan hok
  intro c ms m p s hcmem hmmem hs hkeys hmkeys hdisj
  apply bindPropTable_ok_bound idx.interfaces propTbl [] _ s p h4
  · rintro ⟨c2, ms2⟩ hcms ⟨m2, q⟩ hmp hsin
    by_cases hcm : c2 = c ∧ m2 = m
    · obtain ⟨hc, hm⟩ := hcm
      subst hc
      subst hm
      have hms : ms2 = ms := nodupKeys_payload_eq hkeys hcms hcmem
      subst hms
      exact nodupKeys_payload_eq (hmkeys (c2, ms2) hcms) hmp hmmem
    · exact absurd hsin (hdisj (c2, ms2) hcms (m2, q) hmp hcm)
  · exact ⟨(c, ms), hcmem, (m, p), hmmem, hs⟩

/-- Declaration file of the claim-C3 witness: an interface Array declared
twice (merged), each declaration contributing a push method signature, so
the push entry accumulates the two symbols 7 and 8. -/
def filesC3 : List (List Statement) :=
  [[.interfaceDecl ("Array") 70 [.methodSig (.ident ("push")) 7],
    .interfaceDecl ("Array") 71 [.methodSig (.ident ("push")) 8]]]

/-- Name Index produced by scanning filesC3. -/
def idxC3 : NameIndex := ⟨[], [], [(("Array"), ⟨[70, 71], [], [(("push"), [7, 8])]⟩)]⟩

/-- Property-call table of the claim-C3 witness. -/
def propTblC3 : List (String × List (String × Nat)) := [(("Array"), [(("push"), 400)])]

/-- Macro manager produced by constructing over filesC3. -/
def mgrC3 : MacroManager Nat Nat Nat Nat := ⟨[], [], [], [(7, 400), (8, 400)]⟩

/-- Witness for claim C3: both push symbols of the merged Array interface
are bound to the configured payload. -/
theorem property_call_merged_interface_witness :
    mgrC3.propertyCallMacroFor 7 = some 400 ∧ mgrC3.propertyCallMacroFor 8 = some 400 := by
  have h := property_call_table_binds_every_method_symbol filesC3
    ([] : List (String × Nat)) ([] : List (String × Nat)) ([] : List (String × Nat))
    propTblC3 idxC3 mgrC3 rfl rfl
  exact ⟨h ("Array") [(("push"), 400)] ("push") 400 7
      (by decide) (by decide) (by decide) (by decide) (by decide) (by decide),
    h ("Array") [(("push"), 400)] ("push") 400 8
      (by decide) (by decide) (by decide) (by decide) (by decide) (by decide)⟩

/-- Claim C2: every macro-table entry whose target name is absent from the
corresponding index aborts construction — no registry value is produced —
and when that entry is the first failure point in construction order the
raised ProjectError message names exactly the missing identifier,
function, interface, or interface.method pair. -/
theorem missing_macro_target_aborts_construction
    {α β γ δ : Type} (files : List (List Statement))
    (idTbl : List (String × α)) (callTbl : List (String × β))
    (ctorTbl : List (String × γ)) (propTbl : List (String × List (String × δ)))
    (idx : NameIndex)
    (hscan : scanFiles files = .ok idx) :
    (∀ (n : String) (p : α), (n, p) ∈ idTbl → alistGet idx.identifiers n = none →
      constructOk files idTbl callTbl ctorTbl propTbl = false) ∧
    (∀ (n : String) (p : β), (n, p) ∈ callTbl → alistGet idx.functions n = none →
      constructOk files idTbl callTbl ctorTbl propTbl = false) ∧
    (∀ (c : String) (p : γ), (c, p) ∈ ctorTbl → alistGet idx.interfaces c = none →
      constructOk files idTbl callTbl ctorTbl propTbl = false) ∧
    (∀ (c : String) (ms : List (String × δ)), (c, ms) ∈ propTbl →
      alistGet idx.interfaces c = none →
      constructOk files idTbl callTbl ctorTbl propTbl = false) ∧
    (∀ (c : String) (ms : List (String × δ)) (m : String) (p : δ), (c, ms) ∈ propTbl →
      (m, p) ∈ ms → hasMethod idx.interfaces c m = false →
      constructOk files idTbl callTbl ctorTbl propTbl = false) ∧
    (∀ (pre post : List (String × α)) (n : String) (p : α),
      idTbl = pre ++ (n, p) :: post →
      (∀ np ∈ pre, (alistGet idx.identifiers np.1).isSome = true) →
      alistGet idx.identifiers n = none →
      MacroManager.construct files idTbl callTbl ctorTbl propTbl =
        .error (.projectError (idErrMsg n))) ∧
    (∀ (pre post : List (String × β)) (n : String) (p : β),
      (∀ np ∈ idTbl, (alistGet idx.identifiers np.1).isSome = true) →
      callTbl = pre ++ (n, p) :: post →
      (∀ np ∈ pre, (alistGet idx.functions np.1).isSome = true) →
      alistGet idx.functions n = none →
      MacroManager.construct files idTbl callTbl ctorTbl propTbl =
        .error (.projectError (fnErrMsg n))) ∧
    (∀ (pre post : List (String × γ)) (c : String) (p : γ),
      (∀ np ∈ idTbl, (alistGet idx.identifiers np.1).isSome = true) →
      (∀ np ∈ callTbl, (alistGet idx.functions np.1).isSome = true) →
      ctorTbl = pre ++ (c, p) :: post →
      (∀ cp ∈ pre, (alistGet idx.interfaces cp.1).isSome = true) →
      alistGet idx.interfaces c = none →
      MacroManager.construct files idTbl callTbl ctorTbl propTbl =
        .error (.projectError (ifaceErrMsg c))) ∧
    (∀ (pre post : List (String × List (String × δ))) (c : String) (ms : List (String × δ)),
      (∀ np ∈ idTbl, (alistGet idx.identifiers np.1).isSome = true) →
      (∀ np ∈ callTbl, (alistGet idx.functions np.1).isSome = true) →
      (∀ cp ∈ ctorTbl, (alistGet idx.interfaces cp.1).isSome = true) →
      propTbl = pre ++ (c, ms) :: post →
      propPresent idx.interfaces pre →
      alistGet idx.interfaces c = none →
      MacroManager.construct files idTbl callTbl ctorTbl propTbl =
        .error (.projectError (ifaceErrMsg c))) ∧
    (∀ (pre post : List (String × List (String × δ))) (c : String) (info : InterfaceInfo)
        (mpre mpost : List (String × δ)) (m : String) (p : δ),
      (∀ np ∈ idTbl, (alistGet idx.identifiers np.1).isSome = true) →
      (∀ np ∈ callTbl, (alistGet idx.functions np.1).isSome = true) →
      (∀ cp ∈ ctorTbl, (alistGet idx.interfaces cp.1).isSome = true) →
      propTbl = pre ++ (c, mpre ++ (m, p) :: mpost) :: post →
      propPresent idx.interfaces pre →
      alistGet idx.interfaces c = some info →
      (∀ mp ∈ mpre, (alistGet info.methods mp.1).isSome = true) →
      alistGet info.methods m = none →
      MacroManager.construct files idTbl callTbl ctorTbl propTbl =
        .error (.projectError (methodErrMsg c m))) := by
  have hctorPres : ∀ (tbl : List (String × γ)),
      (∀ cp ∈ tbl, (alistGet idx.interfaces cp.1).isSome = true) →
      (∀ cp ∈ tbl, ((ctorLookup idx.interfaces cp.1).isSome = true)) := by
    intro tbl htbl cp hcp
    have h := htbl cp hcp
    cases halist : alistGet idx.interfaces cp.1 with
    | none => rw [halist] at h; cases h
    | some info => simp [ctorLookup, halist]
  refine ⟨?_, ?_, ?_, ?_, ?_, ?_, ?_, ?_, ?_, ?_⟩
  · intro n p hmem hmiss
    cases hc : MacroManager.construct files idTbl callTbl ctorTbl propTbl with
    | error e => simp [constructOk, hc]
    | ok mgr =>
      exfalso
      obtain ⟨h1, h2, h3, h4⟩ := construct_phases files idTbl callTbl ctorTbl propTbl idx mgr hscan hc
      have hp := bindNameTable_ok_present _ _ _ _ _ h1 (n, p) hmem
      rw [hmiss] at hp
      cases hp
  · intro n p hmem hmiss
    cases hc : MacroManager.construct files idTbl callTbl ctorTbl propTbl with
    | error e => simp [constructOk, hc]
    | ok mgr =>
      exfalso
      obtain ⟨h1, h2, h3, h4⟩ := construct_phases files idTbl callTbl ctorTbl propTbl idx mgr hscan hc
      have hp := bindNameTable_ok_present _ _ _ _ _ h2 (n, p) hmem
      rw [hmiss] at hp
      cases hp
  · intro c p hmem hmiss
    cases hc : MacroManager.construct files idTbl callTbl ctorTbl propTbl with
    | error e => simp [constructOk, hc]
    | ok mgr =>
      exfalso
      obtain ⟨h1, h2, h3, h4⟩ := construct_phases files idTbl callTbl ctorTbl propTbl idx mgr hscan hc
      have hp := bindNameTable_ok_present _ _ _ _ _ h3 (c, p) hmem
      rw [ctorLookup, hmiss] at hp
      cases hp
  · intro c ms hmem hmiss
    cases hc : MacroManager.construct files idTbl callTbl ctorTbl propTbl with
    | error e => simp [constructOk, hc]
    | ok mgr =>
      exfalso
      obtain ⟨h1, h2, h3, h4⟩ := construct_phases files idTbl callTbl ctorTbl propTbl idx mgr hscan hc
      obtain ⟨hiface, _⟩ := bindPropTable_ok_present _ _ _ _ h4 (c, ms) hmem
      rw [hmiss] at hiface
      cases hiface
  · intro c ms m p hcmem hmmem hmiss
    cases hc : MacroManager.construct files idTbl callTbl ctorTbl propTbl with
    | error e => simp [constructOk, hc]
    | ok mgr =>
      exfalso
      obtain ⟨h1, h2, h3, h4⟩ := construct_phases files idTbl callTbl ctorTbl propTbl idx mgr hscan hc
      obtain ⟨_, hms⟩ := bindPropTable_ok_present _ _ _ _ h4 (c, ms) hcmem
      have := hms (m, p) hmmem
      rw [hmiss] at this
      cases this
  · intro pre post n p htbl hpre hmiss
    subst htbl
    have herr := bindNameTable_first_miss (alistGet idx.identifiers) idErrMsg pre post n p hpre hmiss []
    unfold MacroManager.construct
    simp only [hscan, herr]
  · intro pre post n p hpres1 htbl hpre hmiss
    subst htbl
    obtain ⟨im, h1ok⟩ := bindNameTable_present_ok (alistGet idx.identifiers) idErrMsg idTbl hpres1 []
    have herr := bindNameTable_first_miss (alistGet idx.functions) fnErrMsg pre post n p hpre hmiss []
    unfold MacroManager.construct
    simp only [hscan, h1ok, herr]
  · intro pre post c p hpres1 hpres2 htbl hpre hmiss
    subst htbl
    obtain ⟨im, h1ok⟩ := bindNameTable_present_ok (alistGet idx.identifiers) idErrMsg idTbl hpres1 []
    obtain ⟨cm, h2ok⟩ := bindNameTable_present_ok (alistGet idx.functions) fnErrMsg callTbl hpres2 []
    have hmiss2 : ctorLookup idx.interfaces c = none := by
      simp [ctorLookup, hmiss]
    have herr := bindNameTable_first_miss (ctorLookup idx.interfaces) ifaceErrMsg pre post c p
      (hctorPres pre hpre) hmiss2 []
    unfold MacroManager.construct
    simp only [hscan, h1ok, h2ok, herr]
  · intro pre post c ms hpres1 hpres2 hpres3 htbl hpre hmiss
    subst htbl
    obtain ⟨im, h1ok⟩ := bindNameTable_present_ok (alistGet idx.identifiers) idErrMsg idTbl hpres1 []
    obtain ⟨cm, h2ok⟩ := bindNameTable_present_ok (alistGet idx.functions) fnErrMsg callTbl hpres2 []
    obtain ⟨km, h3ok⟩ := bindNameTable_present_ok (ctorLookup idx.interfaces) ifaceErrMsg ctorTbl
      (hctorPres ctorTbl hpres3) []
    have herr := bindPropTable_miss_iface idx.interfaces pre post c ms hpre hmiss []
    unfold MacroManager.construct
    simp only [hscan, h1ok, h2ok, h3ok, herr]
  · intro pre post c info mpre mpost m p hpres1 hpres2 hpres3 htbl hpre hinfo hmpres hmmiss
    subst htbl
    obtain ⟨im, h1ok⟩ := bindNameTable_present_ok (alistGet idx.identifiers) idErrMsg idTbl hpres1 []
    obtain ⟨cm, h2ok⟩ := bindNameTable_present_ok (alistGet idx.functions) fnErrMsg callTbl hpres2 []
    obtain ⟨km, h3ok⟩ := bindNameTable_present_ok (ctorLookup idx.interfaces) ifaceErrMsg ctorTbl
      (hctorPres ctorTbl hpres3) []
    have herr := bindPropTable_miss_method idx.interfaces pre post c info mpre mpost m p
      hpre hinfo hmpres hmmiss []
    unfold MacroManager.construct
    simp only [hscan, h1ok, h2ok, h3ok, herr]

/-- Identifier-macro table of the claim-C2 witness: one entry whose name x
appears in no declaration file. -/
def idTblC2 : List (String × Nat) := [(("x"), 5)]

/-- Witness for claim C2: over an empty declaration file, construction
with the unbound identifier entry x produces no registry value and fails
with the ProjectError naming x. -/
theorem missing_identifier_target_witness :
    constructOk [([] : List Statement)] idTblC2 ([] : List (String × Nat))
      ([] : List (String × Nat)) ([] : List (String × List (String × Nat))) = false ∧
    MacroManager.construct [([] : List Statement)] idTblC2 ([] : List (String × Nat))
      ([] : List (String × Nat)) ([] : List (String × List (String × Nat))) =
      .error (.projectError (idErrMsg ("x"))) := by
  have h := missing_macro_target_aborts_construction [([] : List Statement)] idTblC2
    ([] : List (String × Nat)) ([] : List (String × Nat))
    ([] : List (String × List (String × Nat))) NameIndex.empty rfl
  exact ⟨h.1 ("x") 5 (by decide) rfl,
    h.2.2.2.2.2.1 [] [] ("x") 5 rfl (by decide) rfl⟩

end RobloxTS
